import Mathlib

/-! go-meta-dialer: address classification, dial routing and TLS trust policy.

A shallow embedding of `dialer.go` and `client.go` of package `metadialer`.

Go strings are byte sequences.  A Go string is represented here by a Lean `String`
whose characters stand for the bytes of the Go string, so `len(s)` is the number of
characters and `s[i:]` is `drop i`.  ASCII text is represented by itself.

The Go standard library functions the package calls (`strings.*`, `url.Parse`,
`(*URL).Hostname`, `net.ParseIP`) are modelled after the Go 1.24 sources; the
certificate verifier of `crypto/x509` and the three connection backends are
parameters.
-/

namespace metadialer

/-! ## Errors -/

/-- The error values made inside Go `url.Parse`, before they are wrapped in a
`*url.Error`: `EscapeError s` and `InvalidHostError s` are the Go values of these types
(strings naming the offending bytes), `invalidPort colonPort` is
`fmt.Errorf("invalid port %q after host", colonPort)`, and `errorString msg` is
`errors.New(msg)`. -/
inductive url.ParseError where
  | EscapeError (s : String)
  | InvalidHostError (s : String)
  | invalidPort (colonPort : String)
  | errorString (msg : String)
  deriving DecidableEq, Repr

/-- Go `error` values that the package can return.  `urlError Op URL Err` is the
`*url.Error` that `url.Parse` produces, with its three fields;
`InvalidAddrError` is `net.InvalidAddrError`, `errorf` is a value made by `fmt.Errorf`,
and `other` is any error value coming from a collaborator (a session provider, `net.Dial`
or the certificate verifier). -/
inductive GoError where
  | urlError (Op : String) (URL : String) (Err : url.ParseError)
  | InvalidAddrError (msg : String)
  | errorf (msg : String)
  | other (msg : String)
  deriving DecidableEq, Repr

/-! ## Package `strings` -/

namespace strings

/-- Go `strings.HasPrefix`. -/
def HasPrefix (s pre : String) : Bool := pre.data.isPrefixOf s.data

/-- Go `strings.HasSuffix`. -/
def HasSuffix (s suffix : String) : Bool := suffix.data.isSuffixOf s.data

/-- Index of the first position of `l` (counted from `i`) at which `sub` starts, or `-1`. -/
def indexFrom (sub : List Char) : List Char → Nat → Int
  | [], i => if sub.isPrefixOf [] then (i : Int) else -1
  | c :: cs, i => if sub.isPrefixOf (c :: cs) then (i : Int) else indexFrom sub cs (i + 1)

/-- Go `strings.Index`: the index of the first instance of `substr` in `s`, or `-1`. -/
def Index (s substr : String) : Int := indexFrom substr.data s.data 0

/-- Index of the last position of `l` (counted from `i`) at which `sub` starts; `acc` is
the last match seen so far. -/
def lastIndexFrom (sub : List Char) : List Char → Nat → Int → Int
  | [], i, acc => if sub.isPrefixOf [] then (i : Int) else acc
  | c :: cs, i, acc =>
    lastIndexFrom sub cs (i + 1) (if sub.isPrefixOf (c :: cs) then (i : Int) else acc)

/-- Go `strings.LastIndex`: the index of the last instance of `substr` in `s`, or `-1`. -/
def LastIndex (s substr : String) : Int := lastIndexFrom substr.data s.data 0 (-1)

/-- Go `strings.Contains`. -/
def Contains (s substr : String) : Bool := decide (0 ≤ Index s substr)

/-- Number of non-overlapping instances of the non-empty `sub` in a list. -/
def countFrom (sub : List Char) : Nat → List Char → Nat
  | 0, _ => 0
  | _ + 1, [] => 0
  | fuel + 1, c :: cs =>
    if sub.isPrefixOf (c :: cs) then 1 + countFrom sub fuel ((c :: cs).drop sub.length)
    else countFrom sub fuel cs

/-- Go `strings.Count` (for an empty `substr` Go returns the number of runes plus one;
the package never asks for that, here it is the number of bytes plus one). -/
def Count (s substr : String) : Nat :=
  if substr.data = [] then s.data.length + 1 else countFrom substr.data s.data.length s.data

/-- Go `strings.Cut`: slices `s` around the first instance of `sep`. -/
def Cut (s sep : String) : String × String × Bool :=
  let i := Index s sep
  if 0 ≤ i then
    (⟨s.data.take i.toNat⟩, ⟨s.data.drop (i.toNat + sep.data.length)⟩, true)
  else (s, "", false)

end strings

/-! ## Package `net/url` (model of `url.Parse` and `(*URL).Hostname`) -/

namespace url

/-- The fields of Go `url.URL` that `Parse` fills in (`RawPath` and `RawFragment`, which
only record an alternative spelling, are left out). -/
structure URL where
  Scheme : String := ""
  Opaque : String := ""
  User : Option (String × Option String) := none
  Host : String := ""
  Path : String := ""
  OmitHost : Bool := false
  ForceQuery : Bool := false
  RawQuery : String := ""
  Fragment : String := ""
  deriving DecidableEq, Repr

/-- Go `url.encoding`: the part of a URL a string is escaped for. -/
inductive encoding where
  | encodePath
  | encodePathSegment
  | encodeHost
  | encodeZone
  | encodeUserPassword
  | encodeQueryComponent
  | encodeFragment
  deriving DecidableEq, Repr

/-- Go `url.ishex`. -/
def ishex (c : Char) : Bool :=
  ('0' ≤ c && c ≤ '9') || ('a' ≤ c && c ≤ 'f') || ('A' ≤ c && c ≤ 'F')

/-- Go `url.unhex`. -/
def unhex (c : Char) : Nat :=
  if '0' ≤ c && c ≤ '9' then c.toNat - '0'.toNat
  else if 'a' ≤ c && c ≤ 'f' then c.toNat - 'a'.toNat + 10
  else if 'A' ≤ c && c ≤ 'F' then c.toNat - 'A'.toNat + 10
  else 0

/-- Go `url.shouldEscape`: whether byte `c` must be escaped in the given part of a URL. -/
def shouldEscape (c : Char) (mode : encoding) : Bool :=
  if ('a' ≤ c && c ≤ 'z') || ('A' ≤ c && c ≤ 'Z') || ('0' ≤ c && c ≤ '9') then false
  else if (mode = .encodeHost || mode = .encodeZone) &&
      c ∈ ['!', '$', '&', Char.ofNat 39, '(', ')', '*', '+', ',', ';', '=', ':', '[', ']', '<', '>',
        Char.ofNat 34]
  then false
  else if c ∈ ['-', '_', '.', '~'] then false
  else if c ∈ ['$', '&', '+', ',', '/', ':', ';', '=', '?', '@'] &&
      mode ∈ [encoding.encodePath, .encodePathSegment, .encodeUserPassword,
        .encodeQueryComponent, .encodeFragment]
  then
    match mode with
    | .encodePath => c = '?'
    | .encodePathSegment => c = '/' || c = ';' || c = ',' || c = '?'
    | .encodeUserPassword => c = '@' || c = '/' || c = '?' || c = ':'
    | .encodeQueryComponent => true
    | _ => false
  else if mode = .encodeFragment && c ∈ ['!', '(', ')', '*'] then false
  else true

/-- The first loop of Go `url.unescape`: checks that every `%` starts a well-formed escape
that the mode allows and that a host holds no byte that would need escaping. -/
def unescapeCheck (mode : encoding) : List Char → Except ParseError Unit
  | [] => .ok ()
  | c :: rest =>
    if c = '%' then
      match rest with
      | a :: b :: rest2 =>
        if !ishex a || !ishex b then
          .error (.EscapeError (String.mk ((c :: rest).take 3)))
        else if mode = .encodeHost && unhex a < 8 && [c, a, b] ≠ "%25".data then
          .error (.EscapeError (String.mk [c, a, b]))
        else if mode = .encodeZone && [c, a, b] ≠ "%25".data &&
            Char.ofNat (unhex a * 16 + unhex b) ≠ ' ' &&
            shouldEscape (Char.ofNat (unhex a * 16 + unhex b)) .encodeHost then
          .error (.EscapeError (String.mk [c, a, b]))
        else unescapeCheck mode rest2
      | _ => .error (.EscapeError (String.mk ((c :: rest).take 3)))
    else if (mode = .encodeHost || mode = .encodeZone) && c.toNat < 0x80 &&
        shouldEscape c .encodeHost then
      .error (.InvalidHostError (String.mk [c]))
    else unescapeCheck mode rest

/-- The second loop of Go `url.unescape`: replaces each `%XY` by the byte it stands for
(and, in a query component, `+` by a space). -/
def unescapeDecode (mode : encoding) : List Char → List Char
  | [] => []
  | c :: rest =>
    if c = '%' then
      match rest with
      | a :: b :: rest2 => Char.ofNat (unhex a * 16 + unhex b) :: unescapeDecode mode rest2
      | _ => []
    else if c = '+' then
      (if mode = .encodeQueryComponent then ' ' else '+') :: unescapeDecode mode rest
    else c :: unescapeDecode mode rest

/-- Go `url.unescape`.  (Go returns `s` itself when it holds neither `%` nor a `+` to
convert; decoding such a string gives the same bytes.) -/
def unescape (s : String) (mode : encoding) : Except ParseError String :=
  match unescapeCheck mode s.data with
  | .error e => .error e
  | .ok () => .ok ⟨unescapeDecode mode s.data⟩

/-- Go `url.stringContainsCTLByte`. -/
def stringContainsCTLByte (s : String) : Bool :=
  s.data.any fun b => b < ' ' || b.toNat = 0x7f

/-- The loop of Go `url.getScheme` over the bytes from index `i` on; `pre` holds the
bytes before index `i` in reverse, `all` is the whole string. -/
def getSchemeLoop (all : String) : List Char → List Char → Except ParseError (String × String)
  | [], _ => .ok ("", all)
  | c :: cs, pre =>
    if ('a' ≤ c && c ≤ 'z') || ('A' ≤ c && c ≤ 'Z') then getSchemeLoop all cs (c :: pre)
    else if ('0' ≤ c && c ≤ '9') || c = '+' || c = '-' || c = '.' then
      if pre = [] then .ok ("", all) else getSchemeLoop all cs (c :: pre)
    else if c = ':' then
      if pre = [] then .error (.errorString "missing protocol scheme")
      else .ok (⟨pre.reverse⟩, ⟨cs⟩)
    else .ok ("", all)

/-- Go `url.getScheme`: splits `scheme:rest`; the scheme is empty when there is none. -/
def getScheme (rawURL : String) : Except ParseError (String × String) :=
  getSchemeLoop rawURL rawURL.data []

/-- Go `url.validOptionalPort`: `port` is empty or a colon followed by digits. -/
def validOptionalPort (port : String) : Bool :=
  match port.data with
  | [] => true
  | c :: cs => c = ':' && cs.all fun b => !(b < '0' || b > '9')

/-- Go `url.validUserinfo`. -/
def validUserinfo (s : String) : Bool :=
  s.data.all fun r =>
    ('A' ≤ r && r ≤ 'Z') || ('a' ≤ r && r ≤ 'z') || ('0' ≤ r && r ≤ '9') ||
    r ∈ ['-', '.', '_', ':', '~', '!', '$', '&', Char.ofNat 39, '(', ')', '*', '+', ',', ';', '=',
      '%', '@']

/-- Go `s[i:]` for a byte index `i`. -/
def sliceFrom (s : String) (i : Nat) : String := ⟨s.data.drop i⟩

/-- Go `s[:i]` for a byte index `i`. -/
def sliceTo (s : String) (i : Nat) : String := ⟨s.data.take i⟩

/-- Go `url.parseHost`: checks the host (with its optional port) and unescapes it. -/
def parseHost (host : String) : Except ParseError String :=
  let plain : Except ParseError String := unescape host .encodeHost
  if strings.HasPrefix host "[" then
    let i := strings.LastIndex host "]"
    if i < 0 then .error (.errorString "missing ']' in host")
    else
      let colonPort := sliceFrom host (i.toNat + 1)
      if !validOptionalPort colonPort then
        .error (.invalidPort colonPort)
      else
        let zone := strings.Index (sliceTo host i.toNat) "%25"
        if 0 ≤ zone then
          match unescape (sliceTo host zone.toNat) .encodeHost with
          | .error e => .error e
          | .ok host1 =>
            match unescape (sliceFrom (sliceTo host i.toNat) zone.toNat) .encodeZone with
            | .error e => .error e
            | .ok host2 =>
              match unescape (sliceFrom host i.toNat) .encodeHost with
              | .error e => .error e
              | .ok host3 => .ok (host1 ++ host2 ++ host3)
        else plain
  else
    let i := strings.LastIndex host ":"
    if i ≠ -1 then
      let colonPort := sliceFrom host i.toNat
      if !validOptionalPort colonPort then
        .error (.invalidPort colonPort)
      else plain
    else plain

/-- Go `url.parseAuthority`: splits `[userinfo@]host` and checks both parts. -/
def parseAuthority (authority : String) :
    Except ParseError (Option (String × Option String) × String) :=
  let i := strings.LastIndex authority "@"
  match (if i < 0 then parseHost authority else parseHost (sliceFrom authority (i.toNat + 1))) with
  | .error e => .error e
  | .ok host =>
    if i < 0 then .ok (none, host)
    else
      let userinfo := sliceTo authority i.toNat
      if !validUserinfo userinfo then .error (.errorString "net/url: invalid userinfo")
      else if !strings.Contains userinfo ":" then
        match unescape userinfo .encodeUserPassword with
        | .error e => .error e
        | .ok userinfo => .ok (some (userinfo, none), host)
      else
        let (username, password, _) := strings.Cut userinfo ":"
        match unescape username .encodeUserPassword with
        | .error e => .error e
        | .ok username =>
          match unescape password .encodeUserPassword with
          | .error e => .error e
          | .ok password => .ok (some (username, some password), host)

/-- Go `(*URL).setPath`, as far as it can fail and sets `Path`. -/
def setPath (u : URL) (p : String) : Except ParseError URL :=
  match unescape p .encodePath with
  | .error e => .error e
  | .ok path => .ok { u with Path := path }

/-- Go `(*URL).setFragment`, as far as it can fail and sets `Fragment`. -/
def setFragment (u : URL) (f : String) : Except ParseError URL :=
  match unescape f .encodeFragment with
  | .error e => .error e
  | .ok frag => .ok { u with Fragment := frag }

/-- Go `url.parse` (the worker of `Parse`, which passes `viaRequest = false`).  The scheme
found by `getScheme` holds ASCII letters, digits, `+`, `-` and `.` only, so Go
`strings.ToLower` acts on it byte by byte. -/
def parse (rawURL : String) (viaRequest : Bool) : Except ParseError URL :=
  if stringContainsCTLByte rawURL then .error (.errorString "net/url: invalid control character in URL")
  else if rawURL = "" && viaRequest then .error (.errorString "empty url")
  else if rawURL = "*" then .ok { Path := "*" }
  else
    match getScheme rawURL with
    | .error e => .error e
    | .ok (scheme, rest0) =>
      let url : URL := { Scheme := ⟨scheme.data.map Char.toLower⟩ }
      let forceQuery := strings.HasSuffix rest0 "?" && strings.Count rest0 "?" = 1
      let rest := if forceQuery then sliceTo rest0 (rest0.data.length - 1)
        else (strings.Cut rest0 "?").1
      let url : URL := if forceQuery then { url with ForceQuery := true }
        else { url with RawQuery := (strings.Cut rest0 "?").2.1 }
      if !strings.HasPrefix rest "/" && url.Scheme ≠ "" then
        .ok { url with Opaque := rest }
      else if !strings.HasPrefix rest "/" && viaRequest then .error (.errorString "invalid URI for request")
      else if !strings.HasPrefix rest "/" && strings.Contains (strings.Cut rest "/").1 ":" then
        .error (.errorString "first path segment in URL cannot contain colon")
      else if (url.Scheme ≠ "" || (!viaRequest && !strings.HasPrefix rest "///")) &&
          strings.HasPrefix rest "//" then
        let authority0 := sliceFrom rest 2
        let i := strings.Index authority0 "/"
        let authority := if 0 ≤ i then sliceTo authority0 i.toNat else authority0
        let rest := if 0 ≤ i then sliceFrom authority0 i.toNat else ""
        match parseAuthority authority with
        | .error e => .error e
        | .ok (user, host) => setPath { url with User := user, Host := host } rest
      else if url.Scheme ≠ "" && strings.HasPrefix rest "/" then
        setPath { url with OmitHost := true } rest
      else setPath url rest

/-- Go `url.Parse`: cuts off the fragment, parses the rest, then sets the fragment.  Every
failure is reported as a `*url.Error` with operation `parse`. -/
def Parse (rawURL : String) : Except GoError URL :=
  let (u, frag, _) := strings.Cut rawURL "#"
  match parse u false with
  | .error e => .error (.urlError "parse" u e)
  | .ok url =>
    if frag = "" then .ok url
    else
      match setFragment url frag with
      | .error e => .error (.urlError "parse" rawURL e)
      | .ok url => .ok url

/-- Go `url.splitHostPort`: separates a valid optional port and strips the square
brackets of an IP literal. -/
def splitHostPort (hostPort : String) : String × String :=
  let colon := strings.LastIndex hostPort ":"
  let split := colon ≠ -1 && validOptionalPort (sliceFrom hostPort colon.toNat)
  let host := if split then sliceTo hostPort colon.toNat else hostPort
  let port := if split then sliceFrom hostPort (colon.toNat + 1) else ""
  let host := if strings.HasPrefix host "[" && strings.HasSuffix host "]" then
      sliceTo (sliceFrom host 1) (host.data.length - 2)
    else host
  (host, port)

/-- Go `(*URL).Hostname`: `u.Host` without a valid port and without square brackets. -/
def URL.Hostname (u : URL) : String := (splitHostPort u.Host).1

end url

/-! ## Packages `net/netip` and `net` (model of `net.ParseIP`) -/

namespace netip

/-- What the package needs of a Go `netip.Addr`: the address family and the zone.  The
address bytes are never looked at by the package and are not computed.  The parsing
functions below report a failure by the `msg` field of Go `netip.parseAddrError`. -/
structure Addr where
  is6 : Bool
  zone : String
  deriving DecidableEq, Repr

/-- The loop of Go `netip.parseIPv4Fields` over the bytes from index `i` on: `prev` is
the byte at index `i - 1` (none when `i = 0`), `val` the value of the current octet, `pos`
the number of octets completed, `digLen` the number of digits of the current octet. -/
def parseIPv4FieldsLoop :
    List Char → Option Char → Nat → Nat → Nat → Except String Unit
  | [], _, _, pos, _ => if pos < 3 then .error "IPv4 address too short" else .ok ()
  | c :: cs, prev, val, pos, digLen =>
    if '0' ≤ c && c ≤ '9' then
      if digLen = 1 && val = 0 then .error "IPv4 field has octet with leading zero"
      else if val * 10 + (c.toNat - '0'.toNat) > 255 then .error "IPv4 field has value >255"
      else parseIPv4FieldsLoop cs (some c) (val * 10 + (c.toNat - '0'.toNat)) pos (digLen + 1)
    else if c = '.' then
      if prev = none || cs = [] || prev = some '.' then
        .error "IPv4 field must have at least one digit"
      else if pos = 3 then .error "IPv4 address too long"
      else parseIPv4FieldsLoop cs (some c) 0 (pos + 1) 0
    else .error "unexpected character"

/-- Go `netip.parseIPv4Fields` on the bytes `s = in[off:end]`. -/
def parseIPv4Fields (s : List Char) : Except String Unit :=
  parseIPv4FieldsLoop s none 0 0 0

/-- Go `netip.parseIPv4`. -/
def parseIPv4 (s : String) : Except String Addr :=
  match parseIPv4Fields s.data with
  | .error e => .error e
  | .ok () => .ok { is6 := false, zone := "" }

/-- The inner loop of Go `netip.parseIPv6` that reads one group of hex digits: returns
the number `off` of digits read, the value read and the bytes that follow. -/
def hexGroup : List Char → Nat → Nat → Except String (Nat × Nat × List Char)
  | [], off, acc => .ok (off, acc, [])
  | c :: cs, off, acc =>
    if url.ishex c then
      if off > 3 then .error "each group must have 4 or less digits"
      else if acc * 16 + url.unhex c > 65535 then .error "IPv6 field has value >=2^16"
      else hexGroup cs (off + 1) (acc * 16 + url.unhex c)
    else .ok (off, acc, c :: cs)

/-- The main loop `for i < 16` of Go `netip.parseIPv6` on the state `(s, i, ellipsis)`;
the result is the state at the loop's exit.  Every pass that does not leave the loop adds
2 to `i`, so 8 passes are enough and the first argument is never used up when it starts
at 8. -/
def parseIPv6Loop :
    Nat → List Char → Nat → Option Nat → Except String (List Char × Nat × Option Nat)
  | 0, s, i, ellipsis => .ok (s, i, ellipsis)
  | fuel + 1, s, i, ellipsis =>
    if ¬ i < 16 then .ok (s, i, ellipsis)
    else
      match hexGroup s 0 0 with
      | .error e => .error e
      | .ok (off, _, s1) =>
        if off = 0 then .error "each colon-separated field must have at least one digit"
        else if s1.head? = some '.' then
          if ellipsis = none && i ≠ 12 then
            .error "embedded IPv4 address must replace the final 2 fields of the address"
          else if i + 4 > 16 then
            .error "too many hex fields to fit an embedded IPv4 at the end of the address"
          else
            match parseIPv4Fields s with
            | .error e => .error e
            | .ok () => .ok ([], i + 4, ellipsis)
        else
          match s1 with
          | [] => .ok ([], i + 2, ellipsis)
          | c :: s2 =>
            if c ≠ ':' then .error "unexpected character, want colon"
            else
              match s2 with
              | [] => .error "colon must be followed by more characters"
              | c2 :: s3 =>
                if c2 = ':' then
                  if ellipsis.isSome then .error "multiple :: in address"
                  else if s3 = [] then .ok ([], i + 2, some (i + 2))
                  else parseIPv6Loop fuel s3 (i + 2) (some (i + 2))
                else parseIPv6Loop fuel (c2 :: s3) (i + 2) ellipsis

/-- The end of Go `netip.parseIPv6`: runs the main loop on `s` from `i = 0` and checks
that the whole string was used and that the number of fields fits the ellipsis. -/
def parseIPv6Groups (s : List Char) (ellipsis : Option Nat) (zone : String) :
    Except String Addr :=
  match parseIPv6Loop 8 s 0 ellipsis with
  | .error e => .error e
  | .ok (s, i, ellipsis) =>
    if s ≠ [] then .error "trailing garbage after address"
    else if i < 16 then
      if ellipsis = none then .error "address string too short"
      else .ok { is6 := true, zone := zone }
    else if ellipsis.isSome then
      .error "the :: must expand to at least one field of zeros"
    else .ok { is6 := true, zone := zone }

/-- The middle of Go `netip.parseIPv6`, after the zone has been split off: a leading `::`
is an ellipsis at position 0, and may be the whole address. -/
def parseIPv6NoZone (s : List Char) (zone : String) : Except String Addr :=
  match s with
  | c0 :: c1 :: rest =>
    if c0 = ':' && c1 = ':' then
      if rest = [] then .ok { is6 := true, zone := zone }
      else parseIPv6Groups rest (some 0) zone
    else parseIPv6Groups s none zone
  | _ => parseIPv6Groups s none zone

/-- Go `netip.parseIPv6`: splits off the zone at the first `%` (an empty zone is an
error) and parses the address before it. -/
def parseIPv6 (input : String) : Except String Addr :=
  let i := strings.Index input "%"
  if i ≠ -1 then
    let zone : String := ⟨input.data.drop (i.toNat + 1)⟩
    if zone = "" then .error "zone must be a non-empty string"
    else parseIPv6NoZone (input.data.take i.toNat) zone
  else parseIPv6NoZone input.data ""

/-- The scan of Go `netip.ParseAddr` for the first `.`, `:` or `%` of the string. -/
def parseAddrScan (s : String) : List Char → Except String Addr
  | [] => .error "unable to parse IP"
  | c :: cs =>
    if c = '.' then parseIPv4 s
    else if c = ':' then parseIPv6 s
    else if c = '%' then .error "missing IPv6 address"
    else parseAddrScan s cs

/-- Go `netip.ParseAddr`. -/
def ParseAddr (s : String) : Except String Addr := parseAddrScan s s.data

end netip

namespace net

/-- Go `net.ParseIP`: the parsed address, or none (Go `nil`) when `s` is not a literal
IPv4 or IPv6 address; an address with a zone is not accepted. -/
def ParseIP (s : String) : Option netip.Addr :=
  match netip.ParseAddr s with
  | .error _ => none
  | .ok ip => if ip.zone ≠ "" then none else some ip

end net

/-! ## `dialer.go` -/

/-- The error `net.InvalidAddrError("invalid address: no hostname found")` of `GetTLD`. -/
def errNoHostname : GoError := .InvalidAddrError "invalid address: no hostname found"

/-- The error `net.InvalidAddrError("only TCP connections are supported")` of `dialHelper`. -/
def errOnlyTCP : GoError := .InvalidAddrError "only TCP connections are supported"

/-- The first statement of `GetTLD`: adds the default scheme when `addr` has no `://`. -/
def withDefaultScheme (addr : String) : String :=
  if !strings.Contains addr "://" then "http://" ++ addr else addr

/-- The part of `GetTLD` after the hostname has been extracted (`dialer.go`, lines
137 to 149): classifies the hostname `domain`. -/
def tldOfHostname (domain : String) : Except GoError String :=
  if domain = "" then .error errNoHostname
  else if (net.ParseIP domain).isSome then .ok "ip"
  else
    let lastDot := strings.LastIndex domain "."
    if lastDot = -1 || lastDot = (domain.data.length : Int) - 1 then .ok domain
    else .ok (url.sliceFrom domain (lastDot + 1).toNat)

/-- `GetTLD` of `dialer.go`: the top-level label of an address, or an error. -/
def GetTLD (addr : String) : Except GoError String :=
  let addr := withDefaultScheme addr
  match url.Parse addr with
  | .error err => .error err
  | .ok url => tldOfHostname url.Hostname

/-- One call of a connection backend, with the arguments it was given. -/
inductive Call where
  | garlic (network addr : String)
  | onion (network addr : String)
  | direct (network addr : String)
  deriving DecidableEq, Repr

/-- The connection backends the router delegates to: `Garlic.Dial`, `Onion.Dial` and
`net.Dial`.  Each takes the network and the address and acts on the outside world `W`,
returning a connection or an error and the world after the call. -/
structure Backends (W Conn : Type) where
  GarlicDial : String → String → W → Except GoError Conn × W
  OnionDial : String → String → W → Except GoError Conn × W
  netDial : String → String → W → Except GoError Conn × W

/-- The package-level variables read by the router: the captured initialisation errors
of the two providers (none is Go `nil`) and the flag `ANON`. -/
structure Globals where
  GarlicErr : Option GoError
  OnionErr : Option GoError
  ANON : Bool := true
  deriving DecidableEq, Repr

/-- What one run of the router does: the value it returns, the world it leaves and the
backend calls it made, in order. -/
structure Outcome (W Conn : Type) where
  result : Except GoError Conn
  world : W
  calls : List Call

/-- A return without any backend call. -/
def Outcome.fail {W Conn : Type} (err : GoError) (w : W) : Outcome W Conn :=
  { result := .error err, world := w, calls := [] }

/-- The statement `return Garlic.Dial(network, addr)`. -/
def Backends.callGarlic {W Conn : Type} (B : Backends W Conn) (network addr : String) (w : W) :
    Outcome W Conn :=
  { result := (B.GarlicDial network addr w).1, world := (B.GarlicDial network addr w).2,
    calls := [.garlic network addr] }

/-- The statement `return Onion.Dial(network, addr)`. -/
def Backends.callOnion {W Conn : Type} (B : Backends W Conn) (network addr : String) (w : W) :
    Outcome W Conn :=
  { result := (B.OnionDial network addr w).1, world := (B.OnionDial network addr w).2,
    calls := [.onion network addr] }

/-- The statement `return net.Dial(network, addr)`. -/
def Backends.callDirect {W Conn : Type} (B : Backends W Conn) (network addr : String) (w : W) :
    Outcome W Conn :=
  { result := (B.netDial network addr w).1, world := (B.netDial network addr w).2,
    calls := [.direct network addr] }

/-- `dialHelper` of `dialer.go`: classifies the address and delegates to one backend. -/
def dialHelper {W Conn : Type} (B : Backends W Conn) (G : Globals) (network addr : String)
    (w : W) : Outcome W Conn :=
  match GetTLD addr with
  | .error err => .fail err w
  | .ok tld =>
    if tld = "i2p" then
      match G.GarlicErr with
      | some err => .fail err w
      | none => B.callGarlic network addr w
    else if tld = "onion" then
      match G.OnionErr with
      | some err => .fail err w
      | none =>
        if network ≠ "tcp" && network ≠ "tcp4" && network ≠ "tcp6" && network ≠ "onion" then
          .fail errOnlyTCP w
        else B.callOnion "onion" addr w
    else if G.ANON then
      match G.OnionErr with
      | some err => .fail err w
      | none =>
        if network ≠ "tcp" then .fail errOnlyTCP w
        else B.callOnion network addr w
    else B.callDirect network addr w

/-- `Dial` of `dialer.go`. -/
def Dial {W Conn : Type} (B : Backends W Conn) (G : Globals) (network addr : String) (w : W) :
    Outcome W Conn :=
  dialHelper B G network addr w

/-- `DialContext` of `dialer.go`: the context `ctx` is not used. -/
def DialContext {W Conn Ctx : Type} (B : Backends W Conn) (G : Globals) (_ctx : Ctx)
    (network addr : String) (w : W) : Outcome W Conn :=
  dialHelper B G network addr w

/-! ## Packages `crypto/x509` and `crypto/tls` (what `client.go` uses of them) -/

namespace x509

/-- A Go `*x509.CertPool`: the certificates added to it, in order. -/
abbrev CertPool (Cert : Type) := List Cert

/-- Go `x509.NewCertPool`. -/
def NewCertPool {Cert : Type} : CertPool Cert := []

/-- Go `(*CertPool).AddCert`. -/
def CertPool.AddCert {Cert : Type} (pool : CertPool Cert) (cert : Cert) : CertPool Cert :=
  pool ++ [cert]

/-- The fields of Go `x509.VerifyOptions` that the package and the TLS client set.
`Roots = none` is Go `nil`. -/
structure VerifyOptions (Cert : Type) where
  DNSName : String
  Intermediates : CertPool Cert
  Roots : Option (CertPool Cert) := none

/-- The certificate verifier of the platform: its default root pool and the chain and
host name check of a certificate against a given root pool, intermediates and DNS name
(none is Go `nil`, the certificate verifies). -/
structure Verifier (Cert : Type) where
  systemRoots : CertPool Cert
  check : Cert → CertPool Cert → CertPool Cert → String → Option GoError

/-- Go `(*Certificate).Verify`: verifies against `opts.Roots`, or against the platform
default pool when `opts.Roots` is nil. -/
def Verify {Cert : Type} (X : Verifier Cert) (c : Cert) (opts : VerifyOptions Cert) :
    Option GoError :=
  X.check c (opts.Roots.getD X.systemRoots) opts.Intermediates opts.DNSName

end x509

/-- What a Go function returning `error` does when it may also index a slice: it returns
nil, returns an error, or panics at run time. -/
inductive Verdict where
  | nil
  | err (e : GoError)
  | panic (msg : String)
  deriving DecidableEq, Repr

/-- Turns the `error` returned by a call into a verdict. -/
def Verdict.ofError : Option GoError → Verdict
  | none => .nil
  | some e => .err e

namespace tls

/-- The fields of Go `tls.ConnectionState` read by the callback. -/
structure ConnectionState (Cert : Type) where
  ServerName : String
  PeerCertificates : List Cert

/-- The fields of Go `tls.Config` that matter for certificate verification.  A field
that a composite literal does not mention has its zero value: `InsecureSkipVerify` is
then false and `VerifyConnection` is nil (none). -/
structure Config (Cert : Type) where
  RootCAs : Option (x509.CertPool Cert) := none
  InsecureSkipVerify : Bool := false
  VerifyConnection : Option (ConnectionState Cert → Verdict) := none

/-- Go `(*tls.Conn).verifyServerCertificate` of the TLS client, for the certificate list
the server sent (an empty list is refused before, with "received empty certificates
message"): unless `InsecureSkipVerify` is set the leaf is verified against `RootCAs` for
the server name, with the other certificates as intermediates; after that the
`VerifyConnection` callback, when there is one, is called. -/
def verifyServerCertificate {Cert : Type} (X : x509.Verifier Cert) (config : Config Cert)
    (serverName : String) (certs : List Cert) : Verdict :=
  match certs with
  | [] => .err (.other "tls: received empty certificates message")
  | leaf :: rest =>
    let normal : Option GoError :=
      if !config.InsecureSkipVerify then
        x509.Verify X leaf
          { Roots := config.RootCAs, DNSName := serverName,
            Intermediates := rest.foldl x509.CertPool.AddCert x509.NewCertPool }
      else none
    match normal with
    | some err => .err err
    | none =>
      match config.VerifyConnection with
      | none => .nil
      | some callback => callback { ServerName := serverName, PeerCertificates := certs }

end tls

/-! ## `client.go` -/

/-- The error `fmt.Errorf("no peer certificates provided")` of the callback. -/
def errNoPeerCertificates : GoError := .errorf "no peer certificates provided"

/-- The function literal that `NewMetaHTTPClient` installs as `VerifyConnection`
(`client.go`, lines 29 to 51).  `state.PeerCertificates[1:]` and
`state.PeerCertificates[0]` panic on an empty slice. -/
def VerifyConnection {Cert : Type} (X : x509.Verifier Cert) (state : tls.ConnectionState Cert) :
    Verdict :=
  let domain := state.ServerName
  if strings.HasSuffix domain ".onion" || strings.HasSuffix domain ".i2p" then .nil
  else if state.PeerCertificates.length = 0 then .err errNoPeerCertificates
  else
    match state.PeerCertificates with
    | [] => .panic "slice bounds out of range"
    | leaf :: tail =>
      let opts : x509.VerifyOptions Cert :=
        { DNSName := state.ServerName,
          Intermediates := tail.foldl x509.CertPool.AddCert x509.NewCertPool }
      .ofError (x509.Verify X leaf opts)

/-- The fields of Go `http.Transport` set by `NewMetaHTTPClient` (durations in seconds). -/
structure Transport (W Conn Cert : Type) where
  Dial : String → String → W → Outcome W Conn
  TLSClientConfig : tls.Config Cert
  MaxIdleConns : Nat
  IdleConnTimeout : Nat
  DisableCompression : Bool

/-- The `MetaHTTPClient` of `client.go`: an `http.Client` with its transport and timeout. -/
structure MetaHTTPClient (W Conn Cert : Type) where
  Transport : Transport W Conn Cert
  Timeout : Nat

/-- `NewMetaHTTPClient` of `client.go`. -/
def NewMetaHTTPClient {W Conn Cert : Type} (B : Backends W Conn) (G : Globals)
    (X : x509.Verifier Cert) (rootCAs : Option (x509.CertPool Cert)) :
    MetaHTTPClient W Conn Cert :=
  { Transport :=
      { Dial := Dial B G
        TLSClientConfig :=
          { RootCAs := rootCAs
            VerifyConnection := some (VerifyConnection X) }
        MaxIdleConns := 10
        IdleConnTimeout := 30
        DisableCompression := false }
    Timeout := 30 }

/-! ## Concrete collaborators used to run the definitions -/

deriving instance DecidableEq for Except

/-- Backends whose every call succeeds with connection number 0, 1 or 2 and which count
the calls made in the world. -/
def countingBackends : Backends Nat Nat :=
  { GarlicDial := fun _ _ w => (.ok 0, w + 1)
    OnionDial := fun _ _ w => (.ok 1, w + 1)
    netDial := fun _ _ w => (.ok 2, w + 1) }

/-- Both providers initialised without error, `ANON` at its default `true`. -/
def healthyGlobals : Globals := { GarlicErr := none, OnionErr := none }

/-- A certificate as far as the example verifier looks at it: who it names, who issued
it, the host name it is valid for and whether it is past its validity period. -/
structure ToyCert where
  subject : String
  issuer : String
  dnsName : String
  expired : Bool
  deriving DecidableEq, Repr

/-- An example verifier with an empty platform pool: a certificate verifies when it is
not expired, names the host and is issued by a certificate of the root pool. -/
def toyVerifier : x509.Verifier ToyCert :=
  { systemRoots := []
    check := fun c roots _ dnsName =>
      if c.expired then some (.other "x509: certificate has expired")
      else if c.dnsName ≠ dnsName then some (.other "x509: certificate is valid for another name")
      else if roots.any (fun r => r.subject = c.issuer) then none
      else some (.other "x509: certificate signed by unknown authority") }

/-- A self-signed, expired leaf for `foo.onion`. -/
def selfSignedExpired : ToyCert :=
  { subject := "foo.onion", issuer := "foo.onion", dnsName := "foo.onion", expired := true }

/-- A private root certificate, absent from the platform pool. -/
def privateRoot : ToyCert :=
  { subject := "Private CA", issuer := "Private CA", dnsName := "", expired := false }

/-- A valid leaf for `example.com` issued by the private root. -/
def privateLeaf : ToyCert :=
  { subject := "example.com", issuer := "Private CA", dnsName := "example.com",
    expired := false }

/-! ## Reference classification -/

/-- The bytes of `h` after its last `.` (all of `h` when it holds none). -/
def afterLastDot (h : String) : String := ⟨(h.data.reverse.takeWhile (· ≠ '.')).reverse⟩

/-- The reference classification of a hostname, in the words of the specification: no
label for an empty hostname, "ip" for a literal IP address, the hostname itself when it
holds no `.` or ends in `.`, and otherwise what follows its last `.`. -/
def referenceClassification (h : String) : Except GoError String :=
  if h = "" then .error errNoHostname
  else if (net.ParseIP h).isSome then .ok "ip"
  else if '.' ∉ h.data ∨ h.data.getLast? = some '.' then .ok h
  else .ok (afterLastDot h)

/-! ## Plain hostnames and address bytes -/

/-- The bytes that can occur in a literal IP address without zone. -/
def ipChar (c : Char) : Bool := url.ishex c || c = ':' || c = '.'

/-- A non-empty host with no scheme, port or path: URL parsing of `"http://" + h` extracts
`h` itself as the hostname. -/
def isHostname (h : String) : Bool :=
  h ≠ "" && !strings.Contains h "://" &&
    match url.Parse ("http://" ++ h) with
    | .ok u => decide (u.Hostname = h)
    | .error _ => false

/-! ## Strings -/

/-- `indexFrom` finds a position exactly when `sub` occurs in the list. -/
theorem indexFrom_nonneg_iff (sub l : List Char) (i : Nat) :
    0 ≤ strings.indexFrom sub l i ↔ sub <:+: l := by
  induction l generalizing i with
  | nil =>
    cases sub with
    | nil => simp [strings.indexFrom]
    | cons a as => simp [strings.indexFrom]
  | cons c cs ih =>
    unfold strings.indexFrom
    by_cases hp : sub.isPrefixOf (c :: cs) = true
    · rw [if_pos hp]
      have : sub <+: c :: cs := List.isPrefixOf_iff_prefix.1 hp
      simp [this.isInfix]
    · rw [if_neg hp, ih, List.infix_cons_iff]
      have : ¬ sub <+: c :: cs := fun h => hp (List.isPrefixOf_iff_prefix.2 h)
      simp [this]

/-- `strings.Contains` holds exactly when `substr` occurs in `s`. -/
theorem Contains_iff_occurs (s substr : String) :
    strings.Contains s substr = true ↔ substr.data <:+: s.data := by
  simp [strings.Contains, strings.Index, indexFrom_nonneg_iff]

/-- Without a `.` in the list the last match seen so far is kept. -/
theorem lastIndexFrom_dot_absent (l : List Char) (i : Nat) (acc : Int) (h : '.' ∉ l) :
    strings.lastIndexFrom ".".data l i acc = acc := by
  induction l generalizing i acc with
  | nil => simp [strings.lastIndexFrom]
  | cons c cs ih =>
    have hc : ¬ ('.' = c) := fun e => h (e ▸ List.mem_cons_self _ _)
    have hcs : '.' ∉ cs := fun m => h (List.mem_cons_of_mem _ m)
    simp [strings.lastIndexFrom, hc, ih _ _ hcs]

/-- The last `.` of a list is found at its position. -/
theorem lastIndexFrom_dot_split (pre suf : List Char) (i : Nat) (acc : Int) (h : '.' ∉ suf) :
    strings.lastIndexFrom ".".data (pre ++ '.' :: suf) i acc = (i + pre.length : Nat) := by
  induction pre generalizing i acc with
  | nil => simp [strings.lastIndexFrom, lastIndexFrom_dot_absent _ _ _ h]
  | cons c cs ih =>
    show strings.lastIndexFrom ".".data (c :: (cs ++ '.' :: suf)) i acc = _
    rw [strings.lastIndexFrom, ih]
    simp only [List.length_cons]
    congr 1
    omega


/-- A list holding a `.` splits at its last `.`; what follows holds no `.`. -/
theorem split_at_last_dot (l : List Char) (h : '.' ∈ l) :
    ∃ pre, l = pre ++ '.' :: (l.reverse.takeWhile (· ≠ '.')).reverse ∧
      '.' ∉ (l.reverse.takeWhile (· ≠ '.')).reverse := by
  have hmem : '.' ∈ l.reverse := List.mem_reverse.2 h
  have hsplit := List.takeWhile_append_dropWhile (fun c : Char => decide (c ≠ '.')) l.reverse
  have hnot : '.' ∉ l.reverse.takeWhile (· ≠ '.') := by
    intro m
    have := List.mem_takeWhile_imp m
    simp at this
  cases hd : l.reverse.dropWhile (· ≠ '.') with
  | nil =>
    rw [hd, List.append_nil] at hsplit
    rw [← hsplit] at hmem
    exact absurd hmem hnot
  | cons x xs =>
    have hx : x = '.' := by
      have h0 := List.head_dropWhile_not (fun c : Char => decide (c ≠ '.')) l.reverse
        (by rw [hd]; simp)
      simp only [hd, List.head_cons] at h0
      simpa using h0
    subst hx
    refine ⟨xs.reverse, ?_, fun m => hnot (List.mem_reverse.1 m)⟩
    rw [hd] at hsplit
    have := congrArg List.reverse hsplit
    simp only [List.reverse_append, List.reverse_cons, List.reverse_reverse,
      List.append_assoc, List.singleton_append] at this
    exact this.symm

/-- The classification made by `GetTLD` on a hostname is the reference classification. -/
theorem tldOfHostname_eq_reference (h : String) :
    tldOfHostname h = referenceClassification h := by
  unfold tldOfHostname referenceClassification
  by_cases he : h = ""
  · simp [he]
  rw [if_neg he, if_neg he]
  by_cases hip : (net.ParseIP h).isSome = true
  · rw [if_pos hip, if_pos hip]
  rw [if_neg hip, if_neg hip]
  by_cases hdot : '.' ∈ h.data
  · obtain ⟨pre, hsplit, hsuf⟩ := split_at_last_dot h.data hdot
    generalize hs : (h.data.reverse.takeWhile (· ≠ '.')).reverse = suf at hsplit hsuf
    have hidx : strings.LastIndex h "." = (pre.length : Nat) := by
      unfold strings.LastIndex
      rw [hsplit, lastIndexFrom_dot_split pre suf 0 (-1) hsuf]
      simp
    have hlen : h.data.length = pre.length + 1 + suf.length := by
      rw [hsplit]; simp; omega
    have hafter : afterLastDot h = ⟨suf⟩ := by unfold afterLastDot; rw [hs]
    have hdrop : url.sliceFrom h ((pre.length : Int) + 1).toNat = ⟨suf⟩ := by
      have : ((pre.length : Int) + 1).toNat = pre.length + 1 := by omega
      rw [this]
      unfold url.sliceFrom
      congr 1
      rw [hsplit]
      simp
    simp only [hidx, hlen, hafter, hdrop]
    cases suf with
    | nil =>
      have hl : h.data.getLast? = some '.' := by rw [hsplit]; simp
      simp [hl]
    | cons x xs =>
      have hl : h.data.getLast? ≠ some '.' := by
        rw [hsplit]
        intro hc
        have hx : (x :: xs).getLast? = some '.' := by
          rw [← hc]
          have hcat : pre ++ '.' :: x :: xs = (pre ++ ['.']) ++ (x :: xs) := by simp
          rw [hcat, List.getLast?_append_of_ne_nil _ (List.cons_ne_nil x xs)]
        exact hsuf (List.mem_of_getLast?_eq_some hx)
      have e1 : ¬ ((pre.length : Int) = -1) := by omega
      have e2 : ¬ ((pre.length : Int) = ((pre.length + 1 + (x :: xs).length : Nat) : Int) - 1) := by
        simp only [List.length_cons]; omega
      simp only [e1, e2, hdot, hl, not_true_eq_false, or_self, decide_False, Bool.or_self,
        Bool.false_eq_true, if_false]
  · have hidx : strings.LastIndex h "." = -1 := lastIndexFrom_dot_absent _ _ _ hdot
    simp [hidx, hdot]

/-! ## `net.ParseIP` accepts address bytes only -/

/-- A decimal digit is an address byte. -/
theorem ipChar_of_digit (c : Char) (h : ('0' ≤ c && c ≤ '9') = true) : ipChar c = true := by
  simp only [ipChar, url.ishex, h, Bool.true_or]

/-- The IPv4 loop succeeds only on digits and dots. -/
theorem parseIPv4FieldsLoop_chars (l : List Char) (prev : Option Char) (val pos digLen : Nat)
    (h : netip.parseIPv4FieldsLoop l prev val pos digLen = .ok ()) :
    ∀ c ∈ l, ipChar c = true := by
  induction l generalizing prev val pos digLen with
  | nil => intro c hc; cases hc
  | cons x xs ih =>
    unfold netip.parseIPv4FieldsLoop at h
    split at h
    · rename_i hdig
      split at h
      · cases h
      · split at h
        · cases h
        · intro c hc
          rcases List.mem_cons.1 hc with rfl | hc
          · exact ipChar_of_digit _ hdig
          · exact ih _ _ _ _ h c hc
    · split at h
      · rename_i hdot
        split at h
        · cases h
        · split at h
          · cases h
          · intro c hc
            rcases List.mem_cons.1 hc with rfl | hc
            · simp [ipChar, hdot]
            · exact ih _ _ _ _ h c hc
      · cases h

/-- A hex group reads hex digits only and returns the rest of the string. -/
theorem hexGroup_split (l : List Char) (off acc : Nat) (r : Nat × Nat × List Char)
    (h : netip.hexGroup l off acc = .ok r) :
    ∃ pre, l = pre ++ r.2.2 ∧ ∀ c ∈ pre, ipChar c = true := by
  induction l generalizing off acc with
  | nil =>
    simp only [netip.hexGroup, Except.ok.injEq] at h
    subst h
    exact ⟨[], rfl, fun c hc => by cases hc⟩
  | cons x xs ih =>
    unfold netip.hexGroup at h
    split at h
    · rename_i hx
      split at h
      · cases h
      · split at h
        · cases h
        · obtain ⟨pre, hpre, hall⟩ := ih _ _ h
          refine ⟨x :: pre, by rw [hpre]; rfl, ?_⟩
          intro c hc
          rcases List.mem_cons.1 hc with rfl | hc
          · simp [ipChar, hx]
          · exact hall c hc
    · simp only [Except.ok.injEq] at h
      subst h
      exact ⟨[], rfl, fun c hc => by cases hc⟩

/-- The IPv6 loop consumes address bytes only and returns the rest of the string. -/
theorem parseIPv6Loop_split (fuel : Nat) (s : List Char) (i : Nat) (ellipsis : Option Nat)
    (r : List Char × Nat × Option Nat)
    (h : netip.parseIPv6Loop fuel s i ellipsis = .ok r) :
    ∃ pre, s = pre ++ r.1 ∧ ∀ c ∈ pre, ipChar c = true := by
  induction fuel generalizing s i ellipsis with
  | zero =>
    simp only [netip.parseIPv6Loop, Except.ok.injEq] at h
    subst h
    exact ⟨[], rfl, fun c hc => by cases hc⟩
  | succ fuel ih =>
    unfold netip.parseIPv6Loop at h
    split at h
    · simp only [Except.ok.injEq] at h
      subst h
      exact ⟨[], rfl, fun c hc => by cases hc⟩
    · split at h
      · cases h
      · rename_i off acc s1 hg
        obtain ⟨pre1, hpre1, hall1⟩ := hexGroup_split _ _ _ _ hg
        simp only at hpre1
        split at h
        · cases h
        · split at h
          · split at h
            · cases h
            · split at h
              · cases h
              · split at h
                · cases h
                · rename_i h4
                  simp only [Except.ok.injEq] at h
                  subst h
                  exact ⟨s, by simp, parseIPv4FieldsLoop_chars _ _ _ _ _ h4⟩
          · split at h
            · simp only [Except.ok.injEq] at h
              subst h
              exact ⟨pre1, by simpa using hpre1, hall1⟩
            · rename_i c s2 hhead
              split at h
              · cases h
              · rename_i hc
                have hc : c = ':' := by simpa using hc
                subst hc
                split at h
                · cases h
                · rename_i c2 s3
                  split at h
                  · rename_i hc2
                    subst hc2
                    split at h
                    · cases h
                    · split at h
                      · simp only [Except.ok.injEq] at h
                        subst h
                        rename_i hs3
                        refine ⟨pre1 ++ [':', ':'], by rw [hpre1, hs3]; simp, ?_⟩
                        intro c hc
                        rcases List.mem_append.1 hc with hc | hc
                        · exact hall1 c hc
                        · simp at hc
                          subst hc
                          decide
                      · obtain ⟨pre2, hpre2, hall2⟩ := ih _ _ _ h
                        refine ⟨pre1 ++ [':', ':'] ++ pre2, by rw [hpre1, hpre2]; simp, ?_⟩
                        intro c hc
                        rcases List.mem_append.1 hc with hc | hc
                        · rcases List.mem_append.1 hc with hc | hc
                          · exact hall1 c hc
                          · simp at hc
                            subst hc
                            decide
                        · exact hall2 c hc
                  · obtain ⟨pre2, hpre2, hall2⟩ := ih _ _ _ h
                    refine ⟨pre1 ++ [':'] ++ pre2, by rw [hpre1, hpre2]; simp, ?_⟩
                    intro c hc
                    rcases List.mem_append.1 hc with hc | hc
                    · rcases List.mem_append.1 hc with hc | hc
                      · exact hall1 c hc
                      · simp at hc
                        subst hc
                        decide
                    · exact hall2 c hc

/-- A successful run of the groups keeps the zone and used only address bytes. -/
theorem parseIPv6Groups_chars (s : List Char) (ellipsis : Option Nat) (zone : String)
    (addr : netip.Addr) (h : netip.parseIPv6Groups s ellipsis zone = .ok addr) :
    addr.zone = zone ∧ ∀ c ∈ s, ipChar c = true := by
  unfold netip.parseIPv6Groups at h
  split at h
  · cases h
  · rename_i s' i' e' hloop
    obtain ⟨pre, hpre, hall⟩ := parseIPv6Loop_split _ _ _ _ _ hloop
    by_cases hs' : s' = []
    · subst hs'
      simp only [List.append_nil] at hpre
      subst hpre
      refine ⟨?_, hall⟩
      simp only [ne_eq, not_true_eq_false, if_false] at h
      split at h
      · split at h
        · cases h
        · cases h; rfl
      · split at h
        · cases h
        · cases h; rfl
    · simp only [ne_eq, hs', not_false_eq_true, if_true] at h
      cases h

/-- As `parseIPv6Groups_chars`, with a possible leading `::`. -/
theorem parseIPv6NoZone_chars (s : List Char) (zone : String) (addr : netip.Addr)
    (h : netip.parseIPv6NoZone s zone = .ok addr) :
    addr.zone = zone ∧ ∀ c ∈ s, ipChar c = true := by
  unfold netip.parseIPv6NoZone at h
  split at h
  · rename_i c0 c1 rest
    split at h
    · rename_i hcc
      simp only [Bool.and_eq_true, decide_eq_true_eq] at hcc
      obtain ⟨rfl, rfl⟩ := hcc
      split at h
      · rename_i hr
        subst hr
        cases h
        refine ⟨rfl, ?_⟩
        intro c hc
        simp at hc
        subst hc
        decide
      · obtain ⟨hz, hall⟩ := parseIPv6Groups_chars _ _ _ _ h
        refine ⟨hz, ?_⟩
        intro c hc
        rcases List.mem_cons.1 hc with rfl | hc
        · decide
        · rcases List.mem_cons.1 hc with rfl | hc
          · decide
          · exact hall c hc
    · exact parseIPv6Groups_chars _ _ _ _ h
  · exact parseIPv6Groups_chars _ _ _ _ h

/-- An IPv6 address parsed without zone holds address bytes only. -/
theorem parseIPv6_chars (input : String) (addr : netip.Addr)
    (h : netip.parseIPv6 input = .ok addr) (hz : addr.zone = "") :
    ∀ c ∈ input.data, ipChar c = true := by
  unfold netip.parseIPv6 at h
  simp only at h
  split at h
  · split at h
    · cases h
    · rename_i hzone
      exact absurd ((parseIPv6NoZone_chars _ _ _ h).1.symm.trans hz) hzone
  · exact (parseIPv6NoZone_chars _ _ _ h).2

/-- An IPv4 address holds digits and dots only. -/
theorem parseIPv4_chars (s : String) (addr : netip.Addr) (h : netip.parseIPv4 s = .ok addr) :
    ∀ c ∈ s.data, ipChar c = true := by
  unfold netip.parseIPv4 at h
  split at h
  · cases h
  · rename_i h4
    exact parseIPv4FieldsLoop_chars _ _ _ _ _ h4

/-- An address parsed without zone holds address bytes only. -/
theorem parseAddrScan_chars (s : String) (l : List Char) (addr : netip.Addr)
    (h : netip.parseAddrScan s l = .ok addr) (hz : addr.zone = "") :
    ∀ c ∈ s.data, ipChar c = true := by
  induction l with
  | nil => cases h
  | cons x xs ih =>
    unfold netip.parseAddrScan at h
    split at h
    · exact parseIPv4_chars s addr h
    · split at h
      · exact parseIPv6_chars s addr h hz
      · split at h
        · cases h
        · exact ih h

/-- Every byte of a string that `net.ParseIP` accepts is a hex digit, a colon or a dot. -/
theorem ParseIP_chars (s : String) (h : (net.ParseIP s).isSome = true) :
    ∀ c ∈ s.data, ipChar c = true := by
  unfold net.ParseIP at h
  split at h
  · cases h
  · rename_i ip hp
    split at h
    · cases h
    · rename_i hz
      exact parseAddrScan_chars s s.data ip hp (by simpa using hz)

/-- More fuel than the 8 passes the loop can make does not change its result. -/
theorem parseIPv6Loop_fuel (fuel : Nat) :
    ∀ (s : List Char) (i : Nat) (ellipsis : Option Nat), 16 ≤ i + 2 * fuel →
      netip.parseIPv6Loop (fuel + 1) s i ellipsis = netip.parseIPv6Loop fuel s i ellipsis := by
  induction fuel with
  | zero =>
    intro s i ellipsis h
    have : ¬ i < 16 := by omega
    simp [netip.parseIPv6Loop, this]
  | succ n ih =>
    intro s i ellipsis h
    conv_lhs => unfold netip.parseIPv6Loop
    conv_rhs => unfold netip.parseIPv6Loop
    have e1 := fun s e => ih s (i + 2) e (by omega)
    simp only [e1]

/-- The 8 passes given to the loop of `parseIPv6` are enough: any larger bound gives the
same result. -/
theorem parseIPv6Loop_fuel_enough (k : Nat) (s : List Char) (ellipsis : Option Nat) :
    netip.parseIPv6Loop (8 + k) s 0 ellipsis = netip.parseIPv6Loop 8 s 0 ellipsis := by
  induction k with
  | zero => rfl
  | succ k ih =>
    rw [← ih]
    exact parseIPv6Loop_fuel (8 + k) s 0 ellipsis (by omega)

/-- The bound given to `countFrom` by `Count`, the length of the string, is enough: a
larger bound gives the same count. -/
theorem countFrom_fuel (sub : List Char) (hsub : sub ≠ []) (fuel : Nat) :
    ∀ l : List Char, l.length ≤ fuel →
      strings.countFrom sub (fuel + 1) l = strings.countFrom sub fuel l := by
  induction fuel with
  | zero =>
    intro l hl
    have : l = [] := List.length_eq_zero.1 (by omega)
    subst this
    rfl
  | succ n ih =>
    intro l hl
    cases l with
    | nil => rfl
    | cons c cs =>
      have hlen : 1 ≤ sub.length := List.length_pos.2 hsub
      have h1 : ((c :: cs).drop sub.length).length ≤ n := by
        simp only [List.length_drop, List.length_cons] at hl ⊢
        omega
      have h2 : cs.length ≤ n := by simpa using hl
      conv_lhs => unfold strings.countFrom
      conv_rhs => unfold strings.countFrom
      rw [ih _ h1, ih _ h2]

/-! ## Labels of plain hostnames -/

/-- On a plain hostname `GetTLD` is the reference classification of the string itself. -/
theorem GetTLD_of_isHostname (h : String) (hh : isHostname h = true) :
    h ≠ "" ∧ GetTLD h = referenceClassification h := by
  unfold isHostname at hh
  simp only [Bool.and_eq_true, decide_eq_true_eq, Bool.not_eq_true', ne_eq] at hh
  obtain ⟨⟨hne, hc⟩, hp⟩ := hh
  refine ⟨hne, ?_⟩
  unfold GetTLD withDefaultScheme
  simp only [hc, Bool.not_false, if_true]
  split at hp
  · rename_i u hu
    rw [hu]
    simp only [decide_eq_true_eq] at hp
    simp only [hp]
    exact tldOfHostname_eq_reference h
  · cases hp

/-- A string holding a byte that is no address byte is not an IP literal. -/
theorem not_ip_of_mem (h : String) (c : Char) (hc : c ∈ h.data) (hbad : ipChar c = false) :
    (net.ParseIP h).isSome = false := by
  cases hip : (net.ParseIP h).isSome
  · rfl
  · have := ParseIP_chars h hip c hc
    rw [hbad] at this
    cases this

/-- A hostname that is no IP literal and not the bare label gets the label `lab` exactly
when it ends in `.lab`. -/
theorem reference_label_iff (h lab : String) (hne : h ≠ "")
    (hip : (net.ParseIP h).isSome = false)
    (hlab1 : lab.data ≠ []) (hlab2 : '.' ∉ lab.data) (hbare : h ≠ lab) :
    referenceClassification h = .ok lab ↔ strings.HasSuffix h ⟨'.' :: lab.data⟩ = true := by
  unfold referenceClassification
  rw [if_neg hne, hip]
  simp only [Bool.false_eq_true, if_false, strings.HasSuffix, List.isSuffixOf_iff_suffix]
  constructor
  · intro hr
    split at hr
    · simp only [Except.ok.injEq] at hr
      exact absurd hr hbare
    · rename_i hcond
      simp only [not_or, not_not] at hcond
      simp only [Except.ok.injEq] at hr
      obtain ⟨pre, hsplit, _⟩ := split_at_last_dot h.data hcond.1
      have : (h.data.reverse.takeWhile (· ≠ '.')).reverse = lab.data := by
        rw [← hr]; rfl
      rw [this] at hsplit
      exact ⟨pre, hsplit.symm⟩
  · rintro ⟨pre, hpre⟩
    have hdot : '.' ∈ h.data := by rw [← hpre]; simp
    have hlast : h.data.getLast? ≠ some '.' := by
      rw [← hpre]
      have hcat : pre ++ '.' :: lab.data = (pre ++ ['.']) ++ lab.data := by simp
      rw [hcat, List.getLast?_append_of_ne_nil _ hlab1]
      intro hc
      exact hlab2 (List.mem_of_getLast?_eq_some hc)
    have hcond : ¬ ('.' ∉ h.data ∨ h.data.getLast? = some '.') := by
      simp [hdot, hlast]
    rw [if_neg hcond]
    congr 1
    unfold afterLastDot
    have htw : h.data.reverse.takeWhile (· ≠ '.') = lab.data.reverse := by
      rw [← hpre]
      simp only [List.reverse_append, List.reverse_cons, List.append_assoc,
        List.singleton_append]
      rw [List.takeWhile_append_of_pos]
      · simp
      · intro c hc
        have : c ≠ '.' := fun e => hlab2 (e ▸ List.mem_reverse.1 hc)
        simpa using this
    rw [htw, List.reverse_reverse]

/-! ## The address classifier -/

/-- C1. `GetTLD` equals the reference classification: for every address `a`, URL parsing
is applied to `a` when `a` contains `://` and to `"http://" + a` otherwise; the hostname
`h` it extracts is classified by the reference (invalid-address error when `h` is empty,
"ip" for an IP literal, `h` itself without a `.` or with a final `.`, else what follows
the last `.`, case unchanged), and a failure of URL parsing is returned as it is, with no
label.  The listed addresses get the listed labels. -/
theorem GetTLD_eq_reference :
    (∀ a : String,
      GetTLD a =
        match url.Parse (if "://".data <:+: a.data then a else "http://" ++ a) with
        | .error err => .error err
        | .ok u => referenceClassification u.Hostname) ∧
    referenceClassification "" = .error errNoHostname ∧
    GetTLD "example.i2p" = .ok "i2p" ∧
    GetTLD "http://example.i2p/path" = .ok "i2p" ∧
    GetTLD "example.onion" = .ok "onion" ∧
    GetTLD "1.2.3.4" = .ok "ip" ∧
    GetTLD "http://1.2.3.4:8080" = .ok "ip" ∧
    GetTLD "example.com" = .ok "com" ∧
    GetTLD "localhost" = .ok "localhost" ∧
    GetTLD "Example.COM" = .ok "COM" := by
  refine ⟨?_, by decide, by decide, by decide, by decide, by decide, by decide, by decide,
    by decide, by decide⟩
  intro a
  have hscheme : withDefaultScheme a =
      if "://".data <:+: a.data then a else "http://" ++ a := by
    unfold withDefaultScheme
    by_cases hc : "://".data <:+: a.data
    · have := (Contains_iff_occurs a "://").2 hc
      simp [this, hc]
    · have : strings.Contains a "://" = false := by
        cases hb : strings.Contains a "://"
        · rfl
        · exact absurd ((Contains_iff_occurs a "://").1 hb) hc
      simp [this, hc]
  unfold GetTLD
  simp only [hscheme]
  cases url.Parse (if "://".data <:+: a.data then a else "http://" ++ a) with
  | error e => rfl
  | ok u => exact tldOfHostname_eq_reference _

/-! ## The dial router -/

/-- The route taken is fixed by the label: unfolding of `dialHelper` once `GetTLD` has
succeeded. -/
theorem dialHelper_of_label {W Conn : Type} (B : Backends W Conn) (G : Globals)
    (network addr tld : String) (w : W) (htld : GetTLD addr = .ok tld) :
    dialHelper B G network addr w =
      if tld = "i2p" then
        match G.GarlicErr with
        | some err => .fail err w
        | none => B.callGarlic network addr w
      else if tld = "onion" then
        match G.OnionErr with
        | some err => .fail err w
        | none =>
          if network ≠ "tcp" && network ≠ "tcp4" && network ≠ "tcp6" && network ≠ "onion" then
            .fail errOnlyTCP w
          else B.callOnion "onion" addr w
      else if G.ANON then
        match G.OnionErr with
        | some err => .fail err w
        | none =>
          if network ≠ "tcp" then .fail errOnlyTCP w
          else B.callOnion network addr w
      else B.callDirect network addr w := by
  simp only [dialHelper, htld]

/-- The network test of the onion row, as a membership. -/
theorem onion_network_test (network : String) :
    (network ≠ "tcp" && network ≠ "tcp4" && network ≠ "tcp6" && network ≠ "onion") = true ↔
      network ∉ ["tcp", "tcp4", "tcp6", "onion"] := by
  simp [and_assoc]

/-- The three cases of the onion row of `dialHelper`. -/
theorem dial_onion_cases {W Conn : Type} (B : Backends W Conn) (G : Globals)
    (network addr : String) (w : W) (htld : GetTLD addr = .ok "onion") :
    (∀ e, G.OnionErr = some e → Dial B G network addr w = .fail e w) ∧
    (G.OnionErr = none → network ∉ ["tcp", "tcp4", "tcp6", "onion"] →
      Dial B G network addr w = .fail errOnlyTCP w) ∧
    (G.OnionErr = none → network ∈ ["tcp", "tcp4", "tcp6", "onion"] →
      Dial B G network addr w = B.callOnion "onion" addr w) := by
  have honion_ne : ¬ ("onion" = "i2p") := by decide
  have hd := dialHelper_of_label B G network addr "onion" w htld
  unfold Dial
  rw [if_neg honion_ne, if_pos rfl] at hd
  refine ⟨fun e he => by rw [hd, he], fun he hn => ?_, fun he hn => ?_⟩
  · rw [hd, he]
    exact if_pos ((onion_network_test network).2 hn)
  · have ht : ¬ ((network ≠ "tcp" && network ≠ "tcp4" && network ≠ "tcp6" &&
        network ≠ "onion") = true) := fun h => (onion_network_test network).1 h hn
    rw [hd, he]
    exact if_neg ht

/-- C2. Onion row of the router: for an address labelled "onion" with the onion provider
initialised, a network outside tcp, tcp4, tcp6, onion fails with the unsupported-network
error and no backend call; a network among the four returns exactly the outcome of
`Onion.Dial("onion", addr)`, the only call made. -/
theorem Dial_onion_row {W Conn : Type} (B : Backends W Conn) (G : Globals)
    (network addr : String) (w : W)
    (htld : GetTLD addr = .ok "onion") (hinit : G.OnionErr = none) :
    (network ∉ ["tcp", "tcp4", "tcp6", "onion"] →
      Dial B G network addr w = .fail errOnlyTCP w ∧ (Dial B G network addr w).calls = []) ∧
    (network ∈ ["tcp", "tcp4", "tcp6", "onion"] →
      Dial B G network addr w = B.callOnion "onion" addr w ∧
      (Dial B G network addr w).result = (B.OnionDial "onion" addr w).1 ∧
      (Dial B G network addr w).calls = [Call.onion "onion" addr]) := by
  have hd := dialHelper_of_label B G network addr "onion" w htld
  have hne : ¬ ("onion" = "i2p") := by decide
  rw [if_neg hne, if_pos rfl, hinit] at hd
  constructor
  · intro hn
    have ht := (onion_network_test network).2 hn
    simp only [ht, if_true] at hd
    unfold Dial
    rw [hd]
    exact ⟨rfl, rfl⟩
  · intro hn
    have ht : ¬ ((network ≠ "tcp" && network ≠ "tcp4" && network ≠ "tcp6" &&
        network ≠ "onion") = true) := fun h => (onion_network_test network).1 h hn
    simp only [ht, if_false] at hd
    unfold Dial
    rw [hd]
    exact ⟨rfl, rfl, rfl⟩

/-- Witness of C2 at `Dial("tcp4", "example.onion")` with counting backends. -/
theorem Dial_onion_row_witness :
    GetTLD "example.onion" = .ok "onion" ∧
    (Dial countingBackends healthyGlobals "tcp4" "example.onion" 0).calls =
      [Call.onion "onion" "example.onion"] :=
  ⟨by decide,
    ((Dial_onion_row countingBackends healthyGlobals "tcp4" "example.onion" 0
      (by decide) rfl).2 (by decide)).2.2⟩

/-- C3. Anonymous default routing: with `ANON` true and the onion provider initialised,
an address whose label is neither "i2p" nor "onion" is dialled through
`Onion.Dial(network, addr)` when the network is exactly "tcp" and fails with the
unsupported-network error, without any backend call, for every other network; the direct
`net.Dial` path is never taken. -/
theorem Dial_anon_default {W Conn : Type} (B : Backends W Conn) (G : Globals)
    (network addr tld : String) (w : W)
    (htld : GetTLD addr = .ok tld) (hi2p : tld ≠ "i2p") (honion : tld ≠ "onion")
    (hanon : G.ANON = true) (hinit : G.OnionErr = none) :
    (network = "tcp" →
      Dial B G network addr w = B.callOnion network addr w ∧
      (Dial B G network addr w).result = (B.OnionDial network addr w).1 ∧
      (Dial B G network addr w).calls = [Call.onion network addr]) ∧
    (network ≠ "tcp" →
      Dial B G network addr w = .fail errOnlyTCP w ∧ (Dial B G network addr w).calls = []) ∧
    (∀ n a, Call.direct n a ∉ (Dial B G network addr w).calls) := by
  have hd := dialHelper_of_label B G network addr tld w htld
  rw [if_neg hi2p, if_neg honion, if_pos hanon, hinit] at hd
  unfold Dial
  by_cases hn : network = "tcp"
  · subst hn
    simp only [ne_eq, not_true_eq_false, if_false] at hd
    rw [hd]
    refine ⟨fun _ => ⟨rfl, rfl, rfl⟩, fun h => absurd rfl h, ?_⟩
    intro n a hmem
    simp [Backends.callOnion] at hmem
  · simp only [ne_eq, hn, not_false_eq_true, if_true] at hd
    rw [hd]
    refine ⟨fun h => absurd h hn, fun _ => ⟨rfl, rfl⟩, ?_⟩
    intro n a hmem
    simp [Outcome.fail] at hmem

/-- Witness of C3 at `Dial("tcp", "example.com")` with counting backends. -/
theorem Dial_anon_default_witness :
    GetTLD "example.com" = .ok "com" ∧
    (Dial countingBackends healthyGlobals "tcp" "example.com" 0).calls =
      [Call.onion "tcp" "example.com"] :=
  ⟨by decide,
    ((Dial_anon_default countingBackends healthyGlobals "tcp" "example.com" "com" 0
      (by decide) (by decide) (by decide) rfl rfl).1 rfl).2.2⟩

/-- C4. Direct routing: with `ANON` false, an address whose label is neither "i2p" nor
"onion" is dialled by `net.Dial(network, addr)` for every network string; that is the only
backend call, no network validation is applied, and the outcome is the same whatever the
captured provider errors are. -/
theorem Dial_direct {W Conn : Type} (B : Backends W Conn) (G : Globals)
    (network addr tld : String) (w : W)
    (htld : GetTLD addr = .ok tld) (hi2p : tld ≠ "i2p") (honion : tld ≠ "onion")
    (hanon : G.ANON = false) :
    Dial B G network addr w = B.callDirect network addr w ∧
    (Dial B G network addr w).result = (B.netDial network addr w).1 ∧
    (Dial B G network addr w).calls = [Call.direct network addr] ∧
    (∀ garlicErr onionErr : Option GoError,
      Dial B { GarlicErr := garlicErr, OnionErr := onionErr, ANON := false } network addr w =
        Dial B G network addr w) := by
  have key : ∀ G2 : Globals, G2.ANON = false →
      dialHelper B G2 network addr w = B.callDirect network addr w := by
    intro G2 h2
    have hd := dialHelper_of_label B G2 network addr tld w htld
    rw [if_neg hi2p, if_neg honion, h2] at hd
    simpa using hd
  unfold Dial
  rw [key G hanon]
  exact ⟨rfl, rfl, rfl, fun _ _ => key _ rfl⟩

/-- Witness of C4 at `Dial("udp", "example.com")` with `ANON` false and both providers
failed. -/
theorem Dial_direct_witness :
    GetTLD "example.com" = .ok "com" ∧
    (Dial countingBackends
      { GarlicErr := some (.other "no SAM bridge"), OnionErr := some (.other "no tor"),
        ANON := false } "udp" "example.com" 0).calls = [Call.direct "udp" "example.com"] :=
  ⟨by decide,
    (Dial_direct countingBackends
      { GarlicErr := some (.other "no SAM bridge"), OnionErr := some (.other "no tor"),
        ANON := false } "udp" "example.com" "com" 0
      (by decide) (by decide) (by decide) rfl).2.2.1⟩

/-- The complete case analysis of `Dial`, each case as one equation between outcomes. -/
theorem dial_cases {W Conn : Type} (B : Backends W Conn) (G : Globals)
    (network addr : String) (w : W) :
    (∀ e, GetTLD addr = .error e → Dial B G network addr w = .fail e w) ∧
    (∀ tld, GetTLD addr = .ok tld →
      (tld = "i2p" →
        (∀ e, G.GarlicErr = some e → Dial B G network addr w = .fail e w) ∧
        (G.GarlicErr = none → Dial B G network addr w = B.callGarlic network addr w)) ∧
      (tld = "onion" →
        (∀ e, G.OnionErr = some e → Dial B G network addr w = .fail e w) ∧
        (G.OnionErr = none → network ∉ ["tcp", "tcp4", "tcp6", "onion"] →
          Dial B G network addr w = .fail errOnlyTCP w) ∧
        (G.OnionErr = none → network ∈ ["tcp", "tcp4", "tcp6", "onion"] →
          Dial B G network addr w = B.callOnion "onion" addr w)) ∧
      (tld ≠ "i2p" → tld ≠ "onion" → G.ANON = true →
        (∀ e, G.OnionErr = some e → Dial B G network addr w = .fail e w) ∧
        (G.OnionErr = none → network ≠ "tcp" →
          Dial B G network addr w = .fail errOnlyTCP w) ∧
        (G.OnionErr = none → network = "tcp" →
          Dial B G network addr w = B.callOnion network addr w)) ∧
      (tld ≠ "i2p" → tld ≠ "onion" → G.ANON = false →
        Dial B G network addr w = B.callDirect network addr w)) ∧
    (∀ e, GetTLD addr = .ok "onion" → G.OnionErr = some e →
      Dial B G "udp" addr w = .fail e w) := by
  have honion_ne : ¬ ("onion" = "i2p") := by decide
  refine ⟨?_, ?_, ?_⟩
  · intro e he
    simp only [Dial, dialHelper, he]
  · intro tld htld
    have hd := dialHelper_of_label B G network addr tld w htld
    unfold Dial
    refine ⟨?_, ?_, ?_, ?_⟩
    · intro h
      subst h
      rw [if_pos rfl] at hd
      exact ⟨fun e he => by rw [hd, he], fun he => by rw [hd, he]⟩
    · intro h
      subst h
      exact dial_onion_cases B G network addr w htld
    · intro h1 h2 h3
      rw [if_neg h1, if_neg h2, if_pos h3] at hd
      refine ⟨fun e he => by rw [hd, he], fun he hn => ?_, fun he hn => ?_⟩
      · rw [hd, he]
        simp only [ne_eq, hn, not_false_eq_true, if_true]
      · rw [hd, he]
        simp only [ne_eq, hn, not_true_eq_false, if_false]
    · intro h1 h2 h3
      rw [if_neg h1, if_neg h2, h3] at hd
      simpa using hd
  · intro e htld he
    have hd := dialHelper_of_label B G "udp" addr "onion" w htld
    rw [if_neg honion_ne, if_pos rfl, he] at hd
    exact hd

/-- C5. Error priority of the router, for every network, address, world and value of the
package variables.  A classification error of `GetTLD` is what `Dial` returns, whatever
the providers are.  Otherwise the captured initialisation error of the provider the route
needs (`GarlicErr` for "i2p", `OnionErr` for "onion" and for any other label under `ANON`)
is returned verbatim; failing that the unsupported-network error is returned; in all
these cases no backend is called and the world is left as it was.  Otherwise the value
returned and the world left are exactly those of the one delegated call.  An onion
address dialled with "udp" while `OnionErr` is set yields `OnionErr`. -/
theorem Dial_error_priority {W Conn : Type} (B : Backends W Conn) (G : Globals)
    (network addr : String) (w : W) :
    (∀ e, GetTLD addr = .error e →
      (Dial B G network addr w).result = .error e ∧
      (Dial B G network addr w).calls = [] ∧ (Dial B G network addr w).world = w) ∧
    (∀ tld, GetTLD addr = .ok tld →
      (tld = "i2p" →
        (∀ e, G.GarlicErr = some e →
          (Dial B G network addr w).result = .error e ∧
          (Dial B G network addr w).calls = [] ∧ (Dial B G network addr w).world = w) ∧
        (G.GarlicErr = none →
          (Dial B G network addr w).result = (B.GarlicDial network addr w).1 ∧
          (Dial B G network addr w).calls = [Call.garlic network addr] ∧
          (Dial B G network addr w).world = (B.GarlicDial network addr w).2)) ∧
      (tld = "onion" →
        (∀ e, G.OnionErr = some e →
          (Dial B G network addr w).result = .error e ∧
          (Dial B G network addr w).calls = [] ∧ (Dial B G network addr w).world = w) ∧
        (G.OnionErr = none → network ∉ ["tcp", "tcp4", "tcp6", "onion"] →
          (Dial B G network addr w).result =
            .error (.InvalidAddrError "only TCP connections are supported") ∧
          (Dial B G network addr w).calls = [] ∧ (Dial B G network addr w).world = w) ∧
        (G.OnionErr = none → network ∈ ["tcp", "tcp4", "tcp6", "onion"] →
          (Dial B G network addr w).result = (B.OnionDial "onion" addr w).1 ∧
          (Dial B G network addr w).calls = [Call.onion "onion" addr] ∧
          (Dial B G network addr w).world = (B.OnionDial "onion" addr w).2)) ∧
      (tld ≠ "i2p" → tld ≠ "onion" → G.ANON = true →
        (∀ e, G.OnionErr = some e →
          (Dial B G network addr w).result = .error e ∧
          (Dial B G network addr w).calls = [] ∧ (Dial B G network addr w).world = w) ∧
        (G.OnionErr = none → network ≠ "tcp" →
          (Dial B G network addr w).result =
            .error (.InvalidAddrError "only TCP connections are supported") ∧
          (Dial B G network addr w).calls = [] ∧ (Dial B G network addr w).world = w) ∧
        (G.OnionErr = none → network = "tcp" →
          (Dial B G network addr w).result = (B.OnionDial network addr w).1 ∧
          (Dial B G network addr w).calls = [Call.onion network addr] ∧
          (Dial B G network addr w).world = (B.OnionDial network addr w).2)) ∧
      (tld ≠ "i2p" → tld ≠ "onion" → G.ANON = false →
        (Dial B G network addr w).result = (B.netDial network addr w).1 ∧
        (Dial B G network addr w).calls = [Call.direct network addr] ∧
        (Dial B G network addr w).world = (B.netDial network addr w).2)) ∧
    (∀ e, GetTLD addr = .ok "onion" → G.OnionErr = some e →
      (Dial B G "udp" addr w).result = .error e ∧
      (Dial B G "udp" addr w).calls = [] ∧ (Dial B G "udp" addr w).world = w) := by
  obtain ⟨c1, c2, c3⟩ := dial_cases B G network addr w
  refine ⟨?_, ?_, ?_⟩
  · intro e he
    rw [c1 e he]
    exact ⟨rfl, rfl, rfl⟩
  · intro tld htld
    obtain ⟨ci2p, conion, canon, cdirect⟩ := c2 tld htld
    refine ⟨?_, ?_, ?_, ?_⟩
    · intro h
      refine ⟨fun e he => ?_, fun he => ?_⟩
      · rw [(ci2p h).1 e he]
        exact ⟨rfl, rfl, rfl⟩
      · rw [(ci2p h).2 he]
        exact ⟨rfl, rfl, rfl⟩
    · intro h
      refine ⟨fun e he => ?_, fun he hn => ?_, fun he hn => ?_⟩
      · rw [(conion h).1 e he]
        exact ⟨rfl, rfl, rfl⟩
      · rw [(conion h).2.1 he hn]
        exact ⟨rfl, rfl, rfl⟩
      · rw [(conion h).2.2 he hn]
        exact ⟨rfl, rfl, rfl⟩
    · intro h1 h2 h3
      refine ⟨fun e he => ?_, fun he hn => ?_, fun he hn => ?_⟩
      · rw [(canon h1 h2 h3).1 e he]
        exact ⟨rfl, rfl, rfl⟩
      · rw [(canon h1 h2 h3).2.1 he hn]
        exact ⟨rfl, rfl, rfl⟩
      · rw [(canon h1 h2 h3).2.2 he hn]
        exact ⟨rfl, rfl, rfl⟩
    · intro h1 h2 h3
      rw [cdirect h1 h2 h3]
      exact ⟨rfl, rfl, rfl⟩
  · intro e htld he
    rw [c3 e htld he]
    exact ⟨rfl, rfl, rfl⟩

/-- Witness of C5: `Dial("udp", "example.onion")` with a failed onion provider returns the
captured error, not the unsupported-network error, and calls no backend. -/
theorem Dial_error_priority_witness :
    GetTLD "example.onion" = .ok "onion" ∧
    (Dial countingBackends { GarlicErr := none, OnionErr := some (.other "no tor") }
      "udp" "example.onion" 0).result = .error (.other "no tor") ∧
    (Dial countingBackends { GarlicErr := none, OnionErr := some (.other "no tor") }
      "udp" "example.onion" 0).calls = [] ∧
    (Dial countingBackends { GarlicErr := none, OnionErr := some (.other "no tor") }
      "udp" "example.onion" 0).world = 0 ∧
    GoError.other "no tor" ≠ .InvalidAddrError "only TCP connections are supported" :=
  ⟨by decide,
    ((Dial_error_priority countingBackends
      { GarlicErr := none, OnionErr := some (.other "no tor") }
      "udp" "example.onion" 0).2.2 (.other "no tor") (by decide) rfl).1,
    ((Dial_error_priority countingBackends
      { GarlicErr := none, OnionErr := some (.other "no tor") }
      "udp" "example.onion" 0).2.2 (.other "no tor") (by decide) rfl).2.1,
    ((Dial_error_priority countingBackends
      { GarlicErr := none, OnionErr := some (.other "no tor") }
      "udp" "example.onion" 0).2.2 (.other "no tor") (by decide) rfl).2.2,
    by decide⟩

/-- C9, the code at the failing input.  With the onion provider initialised,
`Dial("tcp", "example.onion")` calls `Onion.Dial("onion", "example.onion")` and returns its
connection, while `Dial("udp", "example.onion")` calls no backend and returns the
unsupported-network error; `DialContext` does the same for any context.  So two network
strings give different outcomes for one onion address. -/
theorem Dial_onion_network_not_ignored :
    GetTLD "example.onion" = .ok "onion" ∧
    (Dial countingBackends healthyGlobals "tcp" "example.onion" 0).result = .ok 1 ∧
    (Dial countingBackends healthyGlobals "tcp" "example.onion" 0).calls =
      [Call.onion "onion" "example.onion"] ∧
    (Dial countingBackends healthyGlobals "udp" "example.onion" 0).result =
      .error (.InvalidAddrError "only TCP connections are supported") ∧
    (Dial countingBackends healthyGlobals "udp" "example.onion" 0).calls = [] ∧
    (DialContext countingBackends healthyGlobals () "tcp" "example.onion" 0).calls =
      [Call.onion "onion" "example.onion"] ∧
    (DialContext countingBackends healthyGlobals () "udp" "example.onion" 0).result =
      .error (.InvalidAddrError "only TCP connections are supported") ∧
    (DialContext countingBackends healthyGlobals () "udp" "example.onion" 0).calls = [] ∧
    ¬ (∀ (B : Backends Nat Nat) (G : Globals) (n1 n2 addr : String) (w : Nat),
        GetTLD addr = .ok "onion" →
          (Dial B G n1 addr w).result = (Dial B G n2 addr w).result ∧
          (Dial B G n1 addr w).calls = (Dial B G n2 addr w).calls) := by
  refine ⟨by decide, by decide, by decide, by decide, by decide, by decide, by decide,
    by decide, ?_⟩
  intro hall
  have h := (hall countingBackends healthyGlobals "tcp" "udp" "example.onion" 0
    (by decide)).2
  revert h
  decide

/-! ## The TLS trust policy -/

/-- Two different suffixes of the same length cannot both end a string. -/
theorem HasSuffix_exclusive (s a b : String) (hlen : a.data.length = b.data.length)
    (hne : a.data ≠ b.data) (ha : strings.HasSuffix s a = true) :
    strings.HasSuffix s b = false := by
  cases hb : strings.HasSuffix s b
  · rfl
  · exfalso
    simp only [strings.HasSuffix, List.isSuffixOf_iff_suffix] at ha hb
    exact hne (List.IsSuffix.eq_of_length (List.suffix_of_suffix_length_le ha hb (le_of_eq hlen))
      hlen)

/-- C6. Trust-policy callback on overlay names: the callback that `NewMetaHTTPClient`
installs returns nil for every server name ending in the exact suffix ".onion" or ".i2p"
and every peer chain, the empty one included, whatever the certificates are.  A name
ending in ".ONION" has neither suffix: it is not accepted on an empty chain and its leaf
is verified on any other chain; the name "example.ONION" is an instance. -/
theorem VerifyConnection_overlay {W Conn Cert : Type} (B : Backends W Conn) (G : Globals)
    (X : x509.Verifier Cert) (rootCAs : Option (x509.CertPool Cert)) :
    (NewMetaHTTPClient B G X rootCAs).Transport.TLSClientConfig.VerifyConnection =
      some (VerifyConnection X) ∧
    (∀ (serverName : String) (chain : List Cert),
      strings.HasSuffix serverName ".onion" = true ∨ strings.HasSuffix serverName ".i2p" = true →
      VerifyConnection X { ServerName := serverName, PeerCertificates := chain } = .nil) ∧
    (∀ serverName : String, strings.HasSuffix serverName ".ONION" = true →
      strings.HasSuffix serverName ".onion" = false ∧
      strings.HasSuffix serverName ".i2p" = false ∧
      VerifyConnection X { ServerName := serverName, PeerCertificates := [] } =
        .err errNoPeerCertificates ∧
      (∀ leaf tail, VerifyConnection X { ServerName := serverName, PeerCertificates := leaf :: tail } =
        .ofError (X.check leaf X.systemRoots (tail.foldl x509.CertPool.AddCert []) serverName))) ∧
    VerifyConnection X { ServerName := "example.ONION", PeerCertificates := [] } =
      .err errNoPeerCertificates := by
  have upper : ∀ serverName : String, strings.HasSuffix serverName ".ONION" = true →
      strings.HasSuffix serverName ".onion" = false ∧
      strings.HasSuffix serverName ".i2p" = false := by
    intro serverName h
    refine ⟨HasSuffix_exclusive serverName ".ONION" ".onion" (by decide) (by decide) h, ?_⟩
    cases hb : strings.HasSuffix serverName ".i2p"
    · rfl
    · exfalso
      simp only [strings.HasSuffix, List.isSuffixOf_iff_suffix] at h hb
      have hs : ".i2p".data <:+ ".ONION".data :=
        List.suffix_of_suffix_length_le hb h (by decide)
      exact absurd hs (by decide)
  refine ⟨rfl, ?_, ?_, ?_⟩
  · intro serverName chain h
    have hb : (strings.HasSuffix serverName ".onion" || strings.HasSuffix serverName ".i2p")
        = true := by
      rcases h with h | h <;> simp [h]
    simp only [VerifyConnection, hb, if_true]
  · intro serverName h
    obtain ⟨h1, h2⟩ := upper serverName h
    refine ⟨h1, h2, ?_, ?_⟩
    · simp [VerifyConnection, h1, h2]
    · intro leaf tail
      simp [VerifyConnection, h1, h2, x509.Verify, x509.NewCertPool]
  · have h := upper "example.ONION" (by decide)
    simp [VerifyConnection, h.1, h.2]

/-- Witness of C6: `foo.onion` with a self-signed, expired leaf is accepted by the
callback. -/
theorem VerifyConnection_overlay_witness :
    strings.HasSuffix "foo.onion" ".onion" = true ∧
    VerifyConnection toyVerifier
      { ServerName := "foo.onion", PeerCertificates := [selfSignedExpired] } = .nil :=
  ⟨by decide,
    (VerifyConnection_overlay countingBackends healthyGlobals toyVerifier none).2.1
      "foo.onion" [selfSignedExpired] (Or.inl (by decide))⟩

/-- The callback on a server name without overlay suffix: an empty chain gives the
no-peer-certificates error; otherwise the leaf is verified against the platform default
pool, whatever root pool the client was built with, with the tail as intermediates.  The
callback never panics. -/
theorem VerifyConnection_clearnet {Cert : Type} (X : x509.Verifier Cert)
    (serverName : String) (chain : List Cert)
    (h1 : strings.HasSuffix serverName ".onion" = false)
    (h2 : strings.HasSuffix serverName ".i2p" = false) :
    (chain = [] → VerifyConnection X { ServerName := serverName, PeerCertificates := chain } =
      .err errNoPeerCertificates) ∧
    (∀ leaf tail, chain = leaf :: tail →
      VerifyConnection X { ServerName := serverName, PeerCertificates := chain } =
        .ofError (X.check leaf X.systemRoots (tail.foldl x509.CertPool.AddCert []) serverName)) ∧
    (∀ msg, VerifyConnection X { ServerName := serverName, PeerCertificates := chain } ≠
      .panic msg) := by
  cases chain with
  | nil =>
    refine ⟨fun _ => ?_, fun _ _ h => (by cases h), fun msg => ?_⟩ <;>
      simp [VerifyConnection, h1, h2]
  | cons leaf tail =>
    have hv : VerifyConnection X { ServerName := serverName, PeerCertificates := leaf :: tail } =
        .ofError (X.check leaf X.systemRoots (tail.foldl x509.CertPool.AddCert []) serverName) := by
      simp [VerifyConnection, h1, h2, x509.Verify, x509.NewCertPool]
    refine ⟨fun h => (by cases h), fun l t h => ?_, fun msg => ?_⟩
    · cases h
      exact hv
    · rw [hv]
      cases X.check leaf X.systemRoots (tail.foldl x509.CertPool.AddCert []) serverName <;>
        simp [Verdict.ofError]

/-- The client built by `NewMetaHTTPClient` leaves `InsecureSkipVerify` false, so the TLS
client verifies the leaf against `rootCAs` before the callback is asked: a leaf that this
verification rejects fails the handshake, for every server name. -/
theorem handshake_normal_verification {W Conn Cert : Type} (B : Backends W Conn) (G : Globals)
    (X : x509.Verifier Cert) (rootCAs : Option (x509.CertPool Cert))
    (serverName : String) (leaf : Cert) (tail : List Cert) (err : GoError)
    (hrej : x509.Verify X leaf
      { Roots := rootCAs, DNSName := serverName,
        Intermediates := tail.foldl x509.CertPool.AddCert x509.NewCertPool } = some err) :
    tls.verifyServerCertificate X (NewMetaHTTPClient B G X rootCAs).Transport.TLSClientConfig
      serverName (leaf :: tail) = .err err := by
  simp [tls.verifyServerCertificate, NewMetaHTTPClient, hrej]

/-- C7, the code at the failing input: the config built by `NewMetaHTTPClient` does not
set `InsecureSkipVerify`, and the handshake with server name `foo.onion` and a
self-signed, expired leaf is rejected by the normal verification although the callback
alone accepts that chain. -/
theorem handshake_onion_rejected :
    (∀ rootCAs : Option (x509.CertPool ToyCert),
      (NewMetaHTTPClient countingBackends healthyGlobals toyVerifier
        rootCAs).Transport.TLSClientConfig.InsecureSkipVerify = false) ∧
    strings.HasSuffix "foo.onion" ".onion" = true ∧
    VerifyConnection toyVerifier
      { ServerName := "foo.onion", PeerCertificates := [selfSignedExpired] } = .nil ∧
    tls.verifyServerCertificate toyVerifier
      (NewMetaHTTPClient countingBackends healthyGlobals toyVerifier
        none).Transport.TLSClientConfig "foo.onion" [selfSignedExpired] =
      .err (.other "x509: certificate has expired") := by
  refine ⟨fun _ => rfl, by decide, by decide, ?_⟩
  exact handshake_normal_verification countingBackends healthyGlobals toyVerifier none
    "foo.onion" selfSignedExpired [] _ (by decide)

/-- C8, the code at the failing input: the client is built with a root pool holding a
private root, and the leaf for `example.com` verifies against that pool, yet the callback
verifies against the platform default pool and rejects the leaf; the outcome of the
callback does not depend on the root pool given to `NewMetaHTTPClient`. -/
theorem VerifyConnection_ignores_rootCAs :
    x509.Verify toyVerifier privateLeaf
      { Roots := some [privateRoot], DNSName := "example.com", Intermediates := [] } = none ∧
    (NewMetaHTTPClient countingBackends healthyGlobals toyVerifier
      (some [privateRoot])).Transport.TLSClientConfig.VerifyConnection =
        some (VerifyConnection toyVerifier) ∧
    VerifyConnection toyVerifier
      { ServerName := "example.com", PeerCertificates := [privateLeaf] } =
      .err (.other "x509: certificate signed by unknown authority") ∧
    tls.verifyServerCertificate toyVerifier
      (NewMetaHTTPClient countingBackends healthyGlobals toyVerifier
        (some [privateRoot])).Transport.TLSClientConfig "example.com" [privateLeaf] =
      .err (.other "x509: certificate signed by unknown authority") ∧
    VerifyConnection toyVerifier { ServerName := "example.com", PeerCertificates := [] } =
      .err errNoPeerCertificates := by
  refine ⟨by decide, rfl, by decide, by decide, by decide⟩

/-! ## Agreement of the router and the trust policy -/

/-- A plain hostname ending in the overlay suffix `.lab`, for `lab` one of "onion" and
"i2p", is labelled `lab`, and a hostname labelled `lab` ends in `.lab` unless it is the
bare label. -/
theorem suffix_iff_label (h lab : String) (hh : isHostname h = true) (hbare : h ≠ lab)
    (hlab : lab = "onion" ∨ lab = "i2p") :
    strings.HasSuffix h ⟨'.' :: lab.data⟩ = true ↔ GetTLD h = .ok lab := by
  obtain ⟨hne, hget⟩ := GetTLD_of_isHostname h hh
  have hlab1 : lab.data ≠ [] := by rcases hlab with rfl | rfl <;> decide
  have hlab2 : '.' ∉ lab.data := by rcases hlab with rfl | rfl <;> decide
  have hbad : ∃ c, c ∈ lab.data ∧ ipChar c = false := by
    rcases hlab with rfl | rfl
    · exact ⟨'n', by decide, by decide⟩
    · exact ⟨'p', by decide, by decide⟩
  rw [hget]
  by_cases hip : (net.ParseIP h).isSome = true
  · obtain ⟨c, hc, hcbad⟩ := hbad
    have hlabne : lab ≠ "ip" := by rcases hlab with rfl | rfl <;> decide
    constructor
    · intro hs
      simp only [strings.HasSuffix, List.isSuffixOf_iff_suffix] at hs
      obtain ⟨pre, hpre⟩ := hs
      have hmem : c ∈ h.data := by rw [← hpre]; simp [hc]
      have := not_ip_of_mem h c hmem hcbad
      rw [hip] at this
      cases this
    · intro hr
      unfold referenceClassification at hr
      rw [if_neg hne, if_pos hip] at hr
      simp only [Except.ok.injEq] at hr
      exact absurd hr.symm hlabne
  · have hip : (net.ParseIP h).isSome = false := by simpa using hip
    exact (reference_label_iff h lab hne hip hlab1 hlab2 hbare).symm

/-- C10, as stated, fails at the bare hostname "onion": it is a plain hostname that the
router labels "onion" and dials through the onion provider, yet it does not end in
".onion" or ".i2p" and the callback does not skip verification for it. -/
theorem overlay_agreement_fails :
    isHostname "onion" = true ∧
    GetTLD "onion" = .ok "onion" ∧
    (Dial countingBackends healthyGlobals "tcp" "onion" 0).calls =
      [Call.onion "onion" "onion"] ∧
    strings.HasSuffix "onion" ".onion" = false ∧
    strings.HasSuffix "onion" ".i2p" = false ∧
    VerifyConnection toyVerifier { ServerName := "onion", PeerCertificates := [] } =
      .err errNoPeerCertificates ∧
    ¬ (∀ h : String, isHostname h = true →
        ((strings.HasSuffix h ".onion" = true ∨ strings.HasSuffix h ".i2p" = true) ↔
          (GetTLD h = .ok "onion" ∨ GetTLD h = .ok "i2p"))) := by
  refine ⟨by decide, by decide, by decide, by decide, by decide, by decide, ?_⟩
  intro hall
  have h := (hall "onion" (by decide)).2 (Or.inl (by decide))
  revert h
  decide

/-- C10, amended.  For every plain hostname `h` other than the bare labels "onion" and
"i2p": `h` ends in ".onion" exactly when `GetTLD` labels it "onion", `h` ends in ".i2p"
exactly when `GetTLD` labels it "i2p", and the callback accepts every chain for `h`
exactly when `GetTLD` gives one of the two overlay labels. -/
theorem overlay_agreement_amended {Cert : Type} (X : x509.Verifier Cert) (h : String)
    (hh : isHostname h = true) (honion : h ≠ "onion") (hi2p : h ≠ "i2p") :
    (strings.HasSuffix h ".onion" = true ↔ GetTLD h = .ok "onion") ∧
    (strings.HasSuffix h ".i2p" = true ↔ GetTLD h = .ok "i2p") ∧
    ((strings.HasSuffix h ".onion" = true ∨ strings.HasSuffix h ".i2p" = true) ↔
      (GetTLD h = .ok "onion" ∨ GetTLD h = .ok "i2p")) ∧
    ((∀ chain : List Cert,
        VerifyConnection X { ServerName := h, PeerCertificates := chain } = .nil) ↔
      (GetTLD h = .ok "onion" ∨ GetTLD h = .ok "i2p")) := by
  have a1 : strings.HasSuffix h ".onion" = true ↔ GetTLD h = .ok "onion" :=
    suffix_iff_label h "onion" hh honion (Or.inl rfl)
  have a2 : strings.HasSuffix h ".i2p" = true ↔ GetTLD h = .ok "i2p" :=
    suffix_iff_label h "i2p" hh hi2p (Or.inr rfl)
  refine ⟨a1, a2, or_congr a1 a2, ?_⟩
  rw [← or_congr a1 a2]
  constructor
  · intro hall
    have h0 := hall []
    by_contra hno
    simp only [not_or, Bool.not_eq_true] at hno
    simp [VerifyConnection, hno.1, hno.2, errNoPeerCertificates] at h0
  · intro hs chain
    have hb : (strings.HasSuffix h ".onion" || strings.HasSuffix h ".i2p") = true := by
      rcases hs with hs | hs <;> simp [hs]
    simp only [VerifyConnection, hb, if_true]

/-- Witness of the amended C10 at the hostname "example.i2p". -/
theorem overlay_agreement_amended_witness :
    isHostname "example.i2p" = true ∧
    (strings.HasSuffix "example.i2p" ".i2p" = true ↔ GetTLD "example.i2p" = .ok "i2p") :=
  ⟨by decide,
    (overlay_agreement_amended toyVerifier "example.i2p" (by decide) (by decide)
      (by decide)).2.1⟩

end metadialer
